import Mathlib

/-!
Verification of the neon-graph in-memory property-graph engine
(`packages/core/core/neon-graph/native/src/lib.rs` and its `graph` module).

The development embeds, as executable Lean definitions:

* the structured value model (`Value`, mirroring `graph::Value` as used by
  `lib.rs`: `F64`, `String`, `Bool`, `Null`, `Undefined`, `Array`, `Object`);
* a model of JavaScript host values (`JsValue`) and the boundary conversions
  `js_value_to_value` / `value_to_js_value` from `lib.rs`;
* the graph engine itself (`Graph` with `add_node`, `get_node`,
  `set_root_node`, `add_edge`, `remove_node`, `remove_by_id` and the
  breadth-first `traverse`); the `graph` module's source file is not part of
  the repository snapshot, so these are modelled from the specification;
* the Neon binding methods of `declare_types!` in `lib.rs` (`jsAddNode`,
  `jsGetNode`, `jsRemoveNode`, `jsRemoveById`, `jsTraverse`), including their
  error behaviour: a thrown JavaScript exception is `HostOutcome.thrown`,
  and a Rust `panic!` / `unreachable!` / `unimplemented!` or a forced
  `unwrap` of a throw result is `HostOutcome.panicked`.

The 64-bit float payload of a number is carried as its bit pattern (a `Nat`);
no statement below depends on floating-point arithmetic, values are only
moved around unchanged, exactly as in the source.
-/

/-- The structured value type of the engine (`graph::Value`), modelled from
the spec (§3) and from the pattern matches in `lib.rs`: a recursive tagged
union over 64-bit float, string, boolean, null, undefined/absent, ordered
sequence, and field mapping.  The source keeps field mappings in a
`HashMap<String, Value>`; here they are association lists with unique keys,
in insertion order. -/
inductive Value where
  | F64 (bits : Nat)
  | String (s : String)
  | Bool (b : Bool)
  | Null
  | Undefined
  | Array (vs : List Value)
  | Object (fs : List (String × Value))

/-- A node's data: a field mapping, as stored in the Node Index. -/
abbrev Obj := List (String × Value)

/-- Model of a JavaScript host value as seen through the Neon downcasts used
in `lib.rs`: arrays, plain objects (own enumerable string-keyed properties),
numbers (64-bit float bit pattern), strings, booleans, `null`, `undefined`,
and `other` for any host value matching none of those shapes (for example a
symbol), which `js_value_to_value` treats as unreachable. -/
inductive JsValue where
  | array (elems : List JsValue)
  | object (fields : List (String × JsValue))
  | number (bits : Nat)
  | boolean (b : Bool)
  | string (s : String)
  | null
  | undefined
  | other

mutual
/-- Structural (deep, value-based) equality on `Value`, the model of Rust's
derived `PartialEq` on `graph::Value`; `remove_node` compares full field
mappings with it. -/
def valueBeq : Value → Value → Bool
  | .F64 a, .F64 b => a == b
  | .String a, .String b => a == b
  | .Bool a, .Bool b => a == b
  | .Null, .Null => true
  | .Undefined, .Undefined => true
  | .Array as, .Array bs => valueListBeq as bs
  | .Object as, .Object bs => valueFieldsBeq as bs
  | _, _ => false

def valueListBeq : List Value → List Value → Bool
  | [], [] => true
  | a :: as, b :: bs => valueBeq a b && valueListBeq as bs
  | _, _ => false

def valueFieldsBeq : List (String × Value) → List (String × Value) → Bool
  | [], [] => true
  | (k, a) :: as, (l, b) :: bs => k == l && valueBeq a b && valueFieldsBeq as bs
  | _, _ => false
end

/-- The `downcast::<JsObject>()` test of Neon: succeeds on plain objects and
also on arrays (a JavaScript array is an object whose own enumerable keys are
its indices); fails on primitives and on values of no supported shape. -/
def downcastObject : JsValue → Option (List (String × JsValue))
  | .object fs => some fs
  | .array es => some ((es.enum).map (fun p => (toString p.1, p.2)))
  | _ => none

mutual
/-- Inbound conversion `js_value_to_value` of `lib.rs`: the source tries the
downcasts in the order array, object, number, boolean, string, null,
undefined, and ends in a panic of the conversion; because the array test
comes first, an array never reaches the object case even though it downcasts
to an object.  `none` models that panic. -/
def js_value_to_value : JsValue → Option Value
  | .array es => (jsListToValues es).map Value.Array
  | .object fs => (jsFieldsToValues fs).map Value.Object
  | .number n => some (Value.F64 n)
  | .boolean b => some (Value.Bool b)
  | .string s => some (Value.String s)
  | .null => some Value.Null
  | .undefined => some Value.Undefined
  | .other => none

def jsListToValues : List JsValue → Option (List Value)
  | [] => some []
  | v :: vs =>
    match js_value_to_value v, jsListToValues vs with
    | some w, some ws => some (w :: ws)
    | _, _ => none

def jsFieldsToValues : List (String × JsValue) → Option (List (String × Value))
  | [] => some []
  | (k, v) :: fs =>
    match js_value_to_value v, jsFieldsToValues fs with
    | some w, some ws => some ((k, w) :: ws)
    | _, _ => none
end

mutual
/-- Outbound conversion `value_to_js_value` of `lib.rs`: total, structural,
sequence order and field order preserved. -/
def value_to_js_value : Value → JsValue
  | .F64 n => .number n
  | .String s => .string s
  | .Null => .null
  | .Undefined => .undefined
  | .Bool b => .boolean b
  | .Array vs => .array (valuesToJsList vs)
  | .Object fs => .object (valueFieldsToJsFields fs)

def valuesToJsList : List Value → List JsValue
  | [] => []
  | v :: vs => value_to_js_value v :: valuesToJsList vs

def valueFieldsToJsFields : List (String × Value) → List (String × JsValue)
  | [] => []
  | (k, v) :: fs => (k, value_to_js_value v) :: valueFieldsToJsFields fs
end

/-- Result of a Neon binding method as observed by the host: a normal return
value, a thrown JavaScript exception, or a Rust panic aborting the call. -/
inductive HostOutcome (α : Type) where
  | ok (a : α)
  | thrown (msg : String)
  | panicked

/-- Modelled from the spec: the error taxonomy of the missing `graph` module
(§7): `DuplicateIdentifier` for `add_node` on an id already present,
`MissingIdentifier` for a node without a string `id` field. -/
inductive GraphError where
  | DuplicateIdentifier
  | MissingIdentifier

/-- Modelled from the spec: the graph state of the missing `graph` module
(§2, §3) — the Node Index (node identifier to field mapping), the Edge Index
(entries `(source id, edge type, destination id)` with set semantics, i.e. a
directed (source, type) adjacency set), and the optional root reference. -/
structure Graph where
  nodes : List (String × Obj)
  edges : List (String × Option String × String)
  root : Option String

/-- Modelled from the spec: `Graph::new` — empty indexes, no root. -/
def Graph.new : Graph :=
  { nodes := [], edges := [], root := none }

/-- Modelled from the spec (§9): identifier extraction from a node's field
mapping — the reserved field is named `id` and must hold a string. -/
def getId (node : Obj) : Option String :=
  match node.find? (fun p => p.1 == "id") with
  | some (_, Value.String s) => some s
  | _ => none

/-- Modelled from the spec: `get_node` (§4.1) — the node's field mapping, or
nothing if no node has that id; no side effects. -/
def get_node (g : Graph) (id : String) : Option Obj :=
  (g.nodes.find? (fun p => p.1 == id)).map (fun p => p.2)

/-- Modelled from the spec: `add_node` (§4.1) — requires a string `id`
field, fails with `DuplicateIdentifier` if the id is already in the Node
Index, otherwise inserts the node keyed by its id.  State is passed
explicitly: the returned graph is unchanged on failure. -/
def add_node (g : Graph) (node : Obj) : Except GraphError Unit × Graph :=
  match getId node with
  | none => (.error .MissingIdentifier, g)
  | some id =>
    match get_node g id with
    | some _ => (.error .DuplicateIdentifier, g)
    | none => (.ok (), { g with nodes := (id, node) :: g.nodes })

/-- Modelled from the spec: `set_root_node` (§4.1) — extracts the id field
and stores it as the root reference, overwriting any previous root; fails
only with `MissingIdentifier`, and does not require the node to exist. -/
def set_root_node (g : Graph) (node : Obj) : Except GraphError Unit × Graph :=
  match getId node with
  | none => (.error .MissingIdentifier, g)
  | some id => (.ok (), { g with root := some id })

/-- Modelled from the spec: `add_edge` (§4.1) — inserts the destination into
the adjacency set keyed by (source id, edge type); inserting the same edge
twice is a no-op, not an error. -/
def add_edge (g : Graph) (idA idB : String) (ty : Option String) :
    Except GraphError Unit × Graph :=
  if (idA, ty, idB) ∈ g.edges then (.ok (), g)
  else (.ok (), { g with edges := g.edges ++ [(idA, ty, idB)] })

/-- Modelled from the spec: the edge purge shared by `remove_node` and
`remove_by_id` (§4.1) — removes the node with the given id from the Node
Index and every edge where that id appears as source or destination from the
Edge Index. -/
def purge (g : Graph) (id : String) : Graph :=
  { nodes := g.nodes.filter (fun p => !(p.1 == id)),
    edges := g.edges.filter (fun e => !(e.1 == id) && !(e.2.2 == id)),
    root := g.root }

/-- Modelled from the spec: `remove_node` (§4.1) — looks the node up by
structural equality of its full field mapping against stored nodes; if
found, removes it and purges its edges, returning the removed data. -/
def remove_node (g : Graph) (node : Obj) : Option Obj × Graph :=
  match g.nodes.find? (fun p => valueFieldsBeq p.2 node) with
  | none => (none, g)
  | some (id, data) => (some data, purge g id)

/-- Modelled from the spec: `remove_by_id` (§4.1) — same removal semantics
as `remove_node` but matched purely by identifier. -/
def remove_by_id (g : Graph) (id : String) : Option Obj × Graph :=
  match g.nodes.find? (fun p => p.1 == id) with
  | none => (none, g)
  | some (_, data) => (some data, purge g id)

/-- Modelled from the spec: the outgoing edges of a node followed by
`traverse` (§4.2) — with an edge-type filter, only edges of exactly that
type; without one, all outgoing edges regardless of type. -/
def neighbors (g : Graph) (id : String) (ty : Option String) : List String :=
  match ty with
  | some t => (g.edges.filter (fun e => e.1 == id && e.2.1 == some t)).map (fun e => e.2.2)
  | none => (g.edges.filter (fun e => e.1 == id)).map (fun e => e.2.2)

/-- Modelled from the spec: the destinations that the traversal loop adds to
the visited set and enqueues when dequeuing `id` — the outgoing destinations
not yet in the visited set.  `fresh` is the complement of the visited set
inside the pool of candidate ids, so "not visited" is "in `fresh`". -/
def newIds (g : Graph) (ty : Option String) (id : String) (fresh : List String) : List String :=
  ((neighbors g id ty).filter (fun d => decide (d ∈ fresh))).dedup

theorem newIds_subset {g : Graph} {ty : Option String} {id : String} {fresh : List String}
    {x : String} (hx : x ∈ newIds g ty id fresh) : x ∈ fresh := by
  simp only [newIds, List.mem_dedup, List.mem_filter, decide_eq_true_eq] at hx
  exact hx.2

theorem length_filter_lt_of_mem {α : Type} {p : α → Bool} {l : List α} {x : α}
    (hx : x ∈ l) (hp : p x = false) : (l.filter p).length < l.length := by
  induction l with
  | nil => cases hx
  | cons a t ih =>
    rcases List.mem_cons.mp hx with rfl | hmem
    · rw [List.filter_cons, hp]
      exact Nat.lt_succ_of_le (List.length_filter_le _ _)
    · by_cases hpa : p a = true
      · simp only [List.filter_cons, hpa, if_true, List.length_cons]
        exact Nat.succ_lt_succ (ih hmem)
      · simp only [List.filter_cons, hpa, if_false, List.length_cons]
        exact Nat.lt_succ_of_lt (ih hmem)

/-- Modelled from the spec: the breadth-first loop of `traverse` (§4.2).
The visited set and pending queue of the spec are represented by `queue`
(the pending ids, all already marked visited) and `fresh` (the candidate ids
not yet marked visited).  Dequeue an id; if its stored data resolves, visit
it and move its not-yet-visited destinations from `fresh` into the visited
set and the queue; if it does not resolve (a dangling edge destination), it
is skipped and contributes no further edges.  The returned list is the visit
order. -/
def bfsAux (g : Graph) (ty : Option String) (queue fresh : List String) : List String :=
  match queue with
  | [] => []
  | id :: rest =>
    match get_node g id with
    | none => bfsAux g ty rest fresh
    | some _ =>
      id :: bfsAux g ty (rest ++ newIds g ty id fresh)
        (fresh.filter (fun d => decide (d ∉ newIds g ty id fresh)))
termination_by (fresh.length, queue.length)
decreasing_by
  · apply Prod.Lex.right
    simp
  · rcases Decidable.em (newIds g ty id fresh = []) with h | h
    · rw [h]
      simp only [List.not_mem_nil, not_false_iff, decide_True, List.filter_true]
      apply Prod.Lex.right
      simp [h]
    · apply Prod.Lex.left
      obtain ⟨x, hx⟩ := List.exists_mem_of_ne_nil _ h
      exact length_filter_lt_of_mem (newIds_subset hx) (by simp [hx])

/-- Modelled from the spec: start resolution of `traverse` (§4.2) — a given
start node contributes only its identifier; with no start node the root
reference is used. -/
def startId (g : Graph) (startNode : Option Obj) : Option String :=
  match startNode with
  | some node => getId node
  | none => g.root

/-- Modelled from the spec: `traverse` (§4.2) — resolves the start id, then
runs the breadth-first walk with a visited set initially containing only the
start id and a queue initially containing only the start id; the pool of
candidate ids that can ever be enqueued afterwards is the edge destinations.
Returns the identifiers of the visited nodes in visit order; `visit` is
invoked once per returned id, with the stored data `get_node` resolves for
it. -/
def traverseIds (g : Graph) (startNode : Option Obj) (ty : Option String) : List String :=
  match startId g startNode with
  | none => []
  | some s =>
    bfsAux g ty [s] (((g.edges.map (fun e => e.2.2)).dedup).filter (fun d => decide (d ≠ s)))

/-- The `addNode` binding of `lib.rs` (lines 91–107): the argument must
downcast to a `JsObject` (else a thrown `TypeError`); its conversion must
yield a field mapping (an array downcasts but converts to a sequence,
reaching the unreachable arm, a panic); `graph.add_node` success returns the
original argument, and an error is fed to `panic!`, crashing instead of
surfacing a recoverable failure. -/
def jsAddNode (g : Graph) (arg0 : JsValue) : HostOutcome (JsValue × Graph) :=
  match downcastObject arg0 with
  | none => .thrown "TypeError"
  | some _ =>
    match js_value_to_value arg0 with
    | none => .panicked
    | some (Value.Object m) =>
      match add_node g m with
      | (Except.ok _, g2) => .ok (arg0, g2)
      | (Except.error _, _) => .panicked
    | some _ => .panicked

/-- The `getNode` binding of `lib.rs` (lines 109–130): the argument must
downcast to a string; a found node is converted back to a host value, a
missing node yields `undefined` — not an error. -/
def jsGetNode (g : Graph) (arg0 : JsValue) : HostOutcome JsValue :=
  match arg0 with
  | .string id =>
    match get_node g id with
    | some w => .ok (value_to_js_value (Value.Object w))
    | none => .ok JsValue.undefined
  | _ => .thrown "TypeError"

/-- The `removeNode` binding of `lib.rs` (lines 179–202): the argument must
downcast to a `JsObject` and convert to a field mapping (else the thrown
"Node is not an object"); when `graph.remove_node` finds nothing the binding
throws "Does not have node", and when it removes a node it returns
`undefined`. -/
def jsRemoveNode (g : Graph) (arg0 : JsValue) : HostOutcome (JsValue × Graph) :=
  match downcastObject arg0 with
  | none => .thrown "TypeError"
  | some _ =>
    match js_value_to_value arg0 with
    | none => .panicked
    | some (Value.Object m) =>
      match remove_node g m with
      | (some _, g2) => .ok (JsValue.undefined, g2)
      | (none, _) => .thrown "Does not have node"
    | some _ => .thrown "Node is not an object"

/-- The `removeById` binding of `lib.rs` (lines 204–216): the argument must
downcast to a string; the `Option` result of `graph.remove_by_id` is
discarded (`let _ = ...`) and the binding always returns `undefined`. -/
def jsRemoveById (g : Graph) (arg0 : JsValue) : HostOutcome (JsValue × Graph) :=
  match arg0 with
  | .string id => .ok (JsValue.undefined, (remove_by_id g id).2)
  | _ => .thrown "TypeError"

/-- The start-node closure of the `traverse` binding (`lib.rs` lines
221–236): reads argument 1; absent, `null` and `undefined` give no start
node; anything else is force-downcast to a `JsObject` (`or_throw` then
`unwrap`: a panic on failure) and force-converted (a panic on failure); a
conversion result that is not a field mapping hits the unimplemented arm, a
panic. -/
def jsTraverseStart (arg1 : Option JsValue) : HostOutcome (Option Obj) :=
  match arg1 with
  | none => .ok none
  | some v =>
    match v with
    | .null => .ok none
    | .undefined => .ok none
    | v =>
      match downcastObject v with
      | none => .panicked
      | some _ =>
        match js_value_to_value v with
        | some (Value.Object m) => .ok (some m)
        | some _ => .panicked
        | none => .panicked

/-- The edge-type closure of the `traverse` binding (`lib.rs` lines
238–246): reads the same argument 1; absent, `null` and `undefined` give no
filter; anything else is force-downcast to a string (`or_throw` then
`unwrap`: a panic on failure). -/
def jsTraverseEdgeType (arg1 : Option JsValue) : HostOutcome (Option String) :=
  match arg1 with
  | none => .ok none
  | some v =>
    match v with
    | .null => .ok none
    | .undefined => .ok none
    | .string s => .ok (some s)
    | _ => .panicked

/-- The `traverse` binding of `lib.rs` (lines 218–259): argument 0 is the
visit callback; the start node and the edge-type filter are both parsed from
argument 1; on success the engine traversal runs and the callback receives
each visited node's data, abstracted here as the list of visited
identifiers. -/
def jsTraverse (g : Graph) (arg1 : Option JsValue) : HostOutcome (List String) :=
  match jsTraverseStart arg1 with
  | .panicked => .panicked
  | .thrown m => .thrown m
  | .ok st =>
    match jsTraverseEdgeType arg1 with
    | .panicked => .panicked
    | .thrown m => .thrown m
    | .ok ty => .ok (traverseIds g st ty)

/-- The field mapping of a node with identifier "a". -/
def objA : Obj := [("id", Value.String "a")]

/-- The field mapping of a node with identifier "b". -/
def objB : Obj := [("id", Value.String "b")]

/-- The field mapping of a node with identifier "c". -/
def objC : Obj := [("id", Value.String "c")]

/-- A graph holding nodes "a" and "b" joined in a directed 2-cycle. -/
def twoCycleGraph : Graph :=
  { nodes := [("a", objA), ("b", objB)]
    edges := [("a", none, "b"), ("b", none, "a")]
    root := none }

/-- A graph with an edge from "a" to "b" typed "friend" and an edge from "a"
to "c" typed "block". -/
def friendBlockGraph : Graph :=
  { nodes := [("a", objA), ("b", objB), ("c", objC)]
    edges := [("a", some "friend", "b"), ("a", some "block", "c")]
    root := none }

/-- A graph holding the single node "a", with a self-loop edge on "a". -/
def singleAGraph : Graph :=
  { nodes := [("a", objA)]
    edges := [("a", none, "a")]
    root := none }

mutual
theorem valueBeq_iff : ∀ a b : Value, valueBeq a b = true ↔ a = b
  | .F64 _, .F64 _ => by simp [valueBeq]
  | .F64 _, .String _ => by simp [valueBeq]
  | .F64 _, .Bool _ => by simp [valueBeq]
  | .F64 _, .Null => by simp [valueBeq]
  | .F64 _, .Undefined => by simp [valueBeq]
  | .F64 _, .Array _ => by simp [valueBeq]
  | .F64 _, .Object _ => by simp [valueBeq]
  | .String _, .F64 _ => by simp [valueBeq]
  | .String _, .String _ => by simp [valueBeq]
  | .String _, .Bool _ => by simp [valueBeq]
  | .String _, .Null => by simp [valueBeq]
  | .String _, .Undefined => by simp [valueBeq]
  | .String _, .Array _ => by simp [valueBeq]
  | .String _, .Object _ => by simp [valueBeq]
  | .Bool _, .F64 _ => by simp [valueBeq]
  | .Bool _, .String _ => by simp [valueBeq]
  | .Bool _, .Bool _ => by simp [valueBeq]
  | .Bool _, .Null => by simp [valueBeq]
  | .Bool _, .Undefined => by simp [valueBeq]
  | .Bool _, .Array _ => by simp [valueBeq]
  | .Bool _, .Object _ => by simp [valueBeq]
  | .Null, .F64 _ => by simp [valueBeq]
  | .Null, .String _ => by simp [valueBeq]
  | .Null, .Bool _ => by simp [valueBeq]
  | .Null, .Null => by simp [valueBeq]
  | .Null, .Undefined => by simp [valueBeq]
  | .Null, .Array _ => by simp [valueBeq]
  | .Null, .Object _ => by simp [valueBeq]
  | .Undefined, .F64 _ => by simp [valueBeq]
  | .Undefined, .String _ => by simp [valueBeq]
  | .Undefined, .Bool _ => by simp [valueBeq]
  | .Undefined, .Null => by simp [valueBeq]
  | .Undefined, .Undefined => by simp [valueBeq]
  | .Undefined, .Array _ => by simp [valueBeq]
  | .Undefined, .Object _ => by simp [valueBeq]
  | .Array _, .F64 _ => by simp [valueBeq]
  | .Array _, .String _ => by simp [valueBeq]
  | .Array _, .Bool _ => by simp [valueBeq]
  | .Array _, .Null => by simp [valueBeq]
  | .Array _, .Undefined => by simp [valueBeq]
  | .Array as, .Array bs => by
    simp only [valueBeq, Value.Array.injEq]
    exact valueListBeq_iff as bs
  | .Array _, .Object _ => by simp [valueBeq]
  | .Object _, .F64 _ => by simp [valueBeq]
  | .Object _, .String _ => by simp [valueBeq]
  | .Object _, .Bool _ => by simp [valueBeq]
  | .Object _, .Null => by simp [valueBeq]
  | .Object _, .Undefined => by simp [valueBeq]
  | .Object _, .Array _ => by simp [valueBeq]
  | .Object as, .Object bs => by
    simp only [valueBeq, Value.Object.injEq]
    exact valueFieldsBeq_iff as bs

theorem valueListBeq_iff : ∀ as bs : List Value, valueListBeq as bs = true ↔ as = bs
  | [], [] => by simp [valueListBeq]
  | [], _ :: _ => by simp [valueListBeq]
  | _ :: _, [] => by simp [valueListBeq]
  | a :: as, b :: bs => by
    simp only [valueListBeq, Bool.and_eq_true, List.cons.injEq]
    exact and_congr (valueBeq_iff a b) (valueListBeq_iff as bs)

theorem valueFieldsBeq_iff : ∀ as bs : List (String × Value), valueFieldsBeq as bs = true ↔ as = bs
  | [], [] => by simp [valueFieldsBeq]
  | [], _ :: _ => by simp [valueFieldsBeq]
  | _ :: _, [] => by simp [valueFieldsBeq]
  | (k, a) :: as, (l, b) :: bs => by
    simp only [valueFieldsBeq, Bool.and_eq_true, List.cons.injEq, Prod.mk.injEq, beq_iff_eq,
      valueBeq_iff a b, valueFieldsBeq_iff as bs, and_assoc]
end

mutual
theorem value_roundtrip : ∀ v : Value, js_value_to_value (value_to_js_value v) = some v
  | .F64 _ => by simp [value_to_js_value, js_value_to_value]
  | .String _ => by simp [value_to_js_value, js_value_to_value]
  | .Bool _ => by simp [value_to_js_value, js_value_to_value]
  | .Null => by simp [value_to_js_value, js_value_to_value]
  | .Undefined => by simp [value_to_js_value, js_value_to_value]
  | .Array vs => by
    simp only [value_to_js_value, js_value_to_value, values_roundtrip vs, Option.map_some']
  | .Object fs => by
    simp only [value_to_js_value, js_value_to_value, fields_roundtrip fs, Option.map_some']

theorem values_roundtrip : ∀ vs : List Value, jsListToValues (valuesToJsList vs) = some vs
  | [] => by simp [valuesToJsList, jsListToValues]
  | v :: vs => by
    simp only [valuesToJsList, jsListToValues, value_roundtrip v, values_roundtrip vs]

theorem fields_roundtrip :
    ∀ fs : List (String × Value), jsFieldsToValues (valueFieldsToJsFields fs) = some fs
  | [] => by simp [valueFieldsToJsFields, jsFieldsToValues]
  | (k, v) :: fs => by
    simp only [valueFieldsToJsFields, jsFieldsToValues, value_roundtrip v, fields_roundtrip fs]
end

theorem bfsAux_nil (g : Graph) (ty : Option String) (fresh : List String) :
    bfsAux g ty [] fresh = [] := by
  rw [bfsAux]

theorem bfsAux_cons_none {g : Graph} {id : String} (ty : Option String)
    (rest fresh : List String) (h : get_node g id = none) :
    bfsAux g ty (id :: rest) fresh = bfsAux g ty rest fresh := by
  rw [bfsAux, h]

theorem bfsAux_cons_some {g : Graph} {id : String} {w : Obj} (ty : Option String)
    (rest fresh : List String) (h : get_node g id = some w) :
    bfsAux g ty (id :: rest) fresh =
      id :: bfsAux g ty (rest ++ newIds g ty id fresh)
        (fresh.filter (fun d => decide (d ∉ newIds g ty id fresh))) := by
  rw [bfsAux, h]

theorem bfsAux_sound (g : Graph) (ty : Option String) :
    ∀ queue fresh : List String, queue.Nodup → (∀ x ∈ queue, x ∉ fresh) →
      (bfsAux g ty queue fresh).Nodup ∧
        ∀ x ∈ bfsAux g ty queue fresh, x ∈ queue ∨ x ∈ fresh := by
  intro queue fresh
  induction queue, fresh using bfsAux.induct g ty with
  | case1 fresh =>
    intro _ _
    simp [bfsAux_nil]
  | case2 fresh id rest hlook ih =>
    intro hnd hdisj
    rw [bfsAux_cons_none ty rest fresh hlook]
    obtain ⟨h1, h2⟩ := ih (List.Nodup.of_cons hnd)
      (fun x hx => hdisj x (List.mem_cons_of_mem _ hx))
    refine ⟨h1, fun x hx => ?_⟩
    rcases h2 x hx with h | h
    · exact Or.inl (List.mem_cons_of_mem _ h)
    · exact Or.inr h
  | case3 fresh id rest w hlook ih =>
    intro hnd hdisj
    rw [bfsAux_cons_some ty rest fresh hlook]
    have hidrest : id ∉ rest := (List.nodup_cons.mp hnd).1
    have hrest : rest.Nodup := (List.nodup_cons.mp hnd).2
    have hidfresh : id ∉ fresh := hdisj id (List.mem_cons_self id rest)
    have hq2 : (rest ++ newIds g ty id fresh).Nodup := by
      rw [List.nodup_append]
      exact ⟨hrest, List.nodup_dedup _, fun x hx hx2 =>
        hdisj x (List.mem_cons_of_mem _ hx) (newIds_subset hx2)⟩
    have hd2 : ∀ x ∈ rest ++ newIds g ty id fresh,
        x ∉ fresh.filter (fun d => decide (d ∉ newIds g ty id fresh)) := by
      intro x hx hxf
      rw [List.mem_filter, decide_eq_true_eq] at hxf
      rcases List.mem_append.mp hx with h | h
      · exact hdisj x (List.mem_cons_of_mem _ h) hxf.1
      · exact hxf.2 h
    obtain ⟨h1, h2⟩ := ih hq2 hd2
    constructor
    · rw [List.nodup_cons]
      refine ⟨fun hmem => ?_, h1⟩
      rcases h2 id hmem with h | h
      · rcases List.mem_append.mp h with h3 | h3
        · exact hidrest h3
        · exact hidfresh (newIds_subset h3)
      · rw [List.mem_filter] at h
        exact hidfresh h.1
    · intro x hx
      rcases List.mem_cons.mp hx with rfl | hx
      · exact Or.inl (List.mem_cons_self x rest)
      · rcases h2 x hx with h | h
        · rcases List.mem_append.mp h with h3 | h3
          · exact Or.inl (List.mem_cons_of_mem _ h3)
          · exact Or.inr (newIds_subset h3)
        · rw [List.mem_filter] at h
          exact Or.inr h.1

theorem bfsAux_mem_isSome (g : Graph) (ty : Option String) :
    ∀ queue fresh : List String, ∀ x ∈ bfsAux g ty queue fresh, (get_node g x).isSome := by
  intro queue fresh
  induction queue, fresh using bfsAux.induct g ty with
  | case1 fresh => simp [bfsAux_nil]
  | case2 fresh id rest hlook ih =>
    rw [bfsAux_cons_none ty rest fresh hlook]
    exact ih
  | case3 fresh id rest w hlook ih =>
    rw [bfsAux_cons_some ty rest fresh hlook]
    intro x hx
    rcases List.mem_cons.mp hx with rfl | hx
    · rw [hlook]
      rfl
    · exact ih x hx

theorem traverseIds_nodup (g : Graph) (s : Option Obj) (ty : Option String) :
    (traverseIds g s ty).Nodup := by
  rw [traverseIds]
  cases h : startId g s with
  | none => simp
  | some a =>
    refine (bfsAux_sound g ty [a] _ (by simp) ?_).1
    intro x hx
    simp only [List.mem_singleton] at hx
    subst hx
    intro hmem
    rw [List.mem_filter, decide_eq_true_eq] at hmem
    exact hmem.2 rfl

theorem traverseIds_mem_isSome (g : Graph) (s : Option Obj) (ty : Option String)
    (x : String) (hx : x ∈ traverseIds g s ty) : (get_node g x).isSome := by
  rw [traverseIds] at hx
  cases h : startId g s with
  | none =>
    rw [h] at hx
    simp at hx
  | some a =>
    rw [h] at hx
    exact bfsAux_mem_isSome g ty [a] _ x hx

theorem get_node_purge_self (g : Graph) (id : String) : get_node (purge g id) id = none := by
  rw [get_node, Option.map_eq_none']
  rw [List.find?_eq_none]
  intro p hp
  rw [purge] at hp
  simp only [List.mem_filter, Bool.not_eq_true'] at hp
  simp [hp.2]

theorem purge_edges {g : Graph} {id : String} {e : String × Option String × String}
    (he : e ∈ (purge g id).edges) : e.1 ≠ id ∧ e.2.2 ≠ id := by
  rw [purge] at he
  simp only [List.mem_filter, Bool.and_eq_true, Bool.not_eq_true', beq_eq_false_iff_ne] at he
  exact he.2

theorem not_mem_traverse_purge (g : Graph) (id : String) (s : Option Obj) (ty : Option String) :
    id ∉ traverseIds (purge g id) s ty := by
  intro hmem
  have h := traverseIds_mem_isSome (purge g id) s ty id hmem
  rw [get_node_purge_self] at h
  simp at h

theorem remove_by_id_found {g : Graph} {id : String} {n : Obj}
    (h : (remove_by_id g id).1 = some n) : (remove_by_id g id).2 = purge g id := by
  rw [remove_by_id] at h ⊢
  cases hf : g.nodes.find? (fun p => p.1 == id) with
  | none =>
    rw [hf] at h
    simp at h
  | some p =>
    obtain ⟨a, b⟩ := p
    rfl

theorem remove_node_none {g : Graph} {node : Obj}
    (h : (remove_node g node).1 = none) : remove_node g node = (none, g) := by
  rw [remove_node] at h ⊢
  cases hf : g.nodes.find? (fun p => valueFieldsBeq p.2 node) with
  | none => rfl
  | some p =>
    obtain ⟨a, b⟩ := p
    rw [hf] at h
    simp at h

/-- Claim C9: inbound conversion maps arrays to ordered sequences (the array
test is tried before the object test — an array passes the object downcast
but is still converted to a sequence, never to a field mapping), objects to
field mappings over their own enumerable string keys, numbers to 64-bit
floats, strings, booleans and null to the corresponding leaf variants,
undefined to the absent variant, and any other host value to the
unreachable/fatal outcome (`none`), not a returned error value. -/
theorem inbound_conversion_shapes (es : List JsValue) (fs : List (String × JsValue))
    (bits : Nat) (s : String) (b : Bool) :
    js_value_to_value (JsValue.array es) = (jsListToValues es).map Value.Array
    ∧ downcastObject (JsValue.array es) = some ((es.enum).map (fun p => (toString p.1, p.2)))
    ∧ js_value_to_value (JsValue.object fs) = (jsFieldsToValues fs).map Value.Object
    ∧ js_value_to_value (JsValue.number bits) = some (Value.F64 bits)
    ∧ js_value_to_value (JsValue.string s) = some (Value.String s)
    ∧ js_value_to_value (JsValue.boolean b) = some (Value.Bool b)
    ∧ js_value_to_value JsValue.null = some Value.Null
    ∧ js_value_to_value JsValue.undefined = some Value.Undefined
    ∧ js_value_to_value JsValue.other = none := by
  refine ⟨?_, rfl, ?_, ?_, ?_, ?_, ?_, ?_, ?_⟩ <;> simp [js_value_to_value]

/-- Claim C10: outbound conversion is the structural inverse of inbound
conversion — converting any Structured Value to a host value and back yields
the very same Structured Value, element for element, sequence order and
field mapping contents preserved. -/
theorem outbound_inbound_roundtrip :
    ∀ v : Value, js_value_to_value (value_to_js_value v) = some v :=
  fun v => value_roundtrip v

/-- Claim C6: `traverse` is a total function (the breadth-first loop is
well-founded, so it terminates on every graph) that visits each node
identifier at most once; on the 2-cycle a→b→a, starting at a with no type
filter, it visits exactly a and b, each exactly once. -/
theorem traverse_terminates_visits_once :
    (∀ (g : Graph) (s : Option Obj) (ty : Option String), (traverseIds g s ty).Nodup)
    ∧ traverseIds twoCycleGraph (some objA) none = ["a", "b"] := by
  refine ⟨fun g s ty => traverseIds_nodup g s ty, ?_⟩
  simp [traverseIds, startId, getId, objA, objB, twoCycleGraph, bfsAux, get_node,
    newIds, neighbors]

/-- Claim C8 (counterexample): on a graph holding the node with id "a", the
engine-level `remove_by_id` does return the removed node's data, but the
`removeById` binding returns `undefined` to the caller — which is not the
removed node's data — so the result is not observable by the caller. -/
theorem removeById_result_not_observable :
    (remove_by_id singleAGraph "a").1 = some objA
    ∧ jsRemoveById singleAGraph (JsValue.string "a")
        = HostOutcome.ok (JsValue.undefined, (remove_by_id singleAGraph "a").2)
    ∧ JsValue.undefined ≠ value_to_js_value (Value.Object objA) := by
  refine ⟨rfl, rfl, ?_⟩
  have h : value_to_js_value (Value.Object objA) = JsValue.object (valueFieldsToJsFields objA) := by
    simp [value_to_js_value]
  rw [h]
  exact fun hcon => JsValue.noConfusion hcon

/-- Claim C8 (amended): the engine-level `remove_by_id` returns the removed
node's data exactly when a node with that identifier was stored (it agrees
with `get_node`) and nothing otherwise, but the `removeById` binding
discards that result and always hands `undefined` back to the host caller. -/
theorem removeById_option_and_binding_undefined (g : Graph) (id : String) :
    (remove_by_id g id).1 = get_node g id
    ∧ jsRemoveById g (JsValue.string id)
        = HostOutcome.ok (JsValue.undefined, (remove_by_id g id).2) := by
  constructor
  · rw [remove_by_id, get_node]
    cases hf : g.nodes.find? (fun p => p.1 == id) with
    | none => rfl
    | some p =>
      obtain ⟨a, b⟩ := p
      rfl
  · rfl

/-- Claim C3: in the `traverse` binding both the start node and the
edge-type filter are parsed from the same second argument; every call whose
second argument is present and neither null nor undefined panics (the value
cannot satisfy both the object downcast and the string downcast, and a
mismatch is force-unwrapped), while a call whose second argument is absent,
null or undefined completes, starting from the root reference with no
edge-type filter. -/
theorem traverse_binding_second_argument_parse (g : Graph) (v : JsValue)
    (h1 : v ≠ JsValue.null) (h2 : v ≠ JsValue.undefined) :
    jsTraverse g (some v) = HostOutcome.panicked
    ∧ jsTraverse g none = HostOutcome.ok (traverseIds g none none)
    ∧ jsTraverse g (some JsValue.null) = HostOutcome.ok (traverseIds g none none)
    ∧ jsTraverse g (some JsValue.undefined) = HostOutcome.ok (traverseIds g none none) := by
  refine ⟨?_, rfl, rfl, rfl⟩
  cases v with
  | null => exact absurd rfl h1
  | undefined => exact absurd rfl h2
  | number bits => rfl
  | boolean b => rfl
  | string s => rfl
  | other => rfl
  | array es =>
    have hstart : jsTraverseStart (some (JsValue.array es)) = HostOutcome.panicked := by
      rw [jsTraverseStart]
      simp only [downcastObject, js_value_to_value]
      · cases h : jsListToValues es with
        | none => rfl
        | some ws => rfl
      · exact fun hcon => JsValue.noConfusion hcon
      · exact fun hcon => JsValue.noConfusion hcon
    rw [jsTraverse, hstart]
  | object fs =>
    cases h : jsFieldsToValues fs with
    | none =>
      have hstart : jsTraverseStart (some (JsValue.object fs)) = HostOutcome.panicked := by
        rw [jsTraverseStart]
        simp only [downcastObject, js_value_to_value, h]
        · rfl
        · exact fun hcon => JsValue.noConfusion hcon
        · exact fun hcon => JsValue.noConfusion hcon
      rw [jsTraverse, hstart]
    | some m =>
      have hstart : jsTraverseStart (some (JsValue.object fs)) = HostOutcome.ok (some m) := by
        rw [jsTraverseStart]
        simp only [downcastObject, js_value_to_value, h]
        · rfl
        · exact fun hcon => JsValue.noConfusion hcon
        · exact fun hcon => JsValue.noConfusion hcon
      rw [jsTraverse, hstart]
      rfl

theorem traverse_binding_second_argument_parse_witness :
    JsValue.string "friend" ≠ JsValue.null
    ∧ JsValue.string "friend" ≠ JsValue.undefined
    ∧ (jsTraverse Graph.new (some (JsValue.string "friend")) = HostOutcome.panicked
       ∧ jsTraverse Graph.new none = HostOutcome.ok (traverseIds Graph.new none none)
       ∧ jsTraverse Graph.new (some JsValue.null)
           = HostOutcome.ok (traverseIds Graph.new none none)
       ∧ jsTraverse Graph.new (some JsValue.undefined)
           = HostOutcome.ok (traverseIds Graph.new none none)) :=
  ⟨fun hcon => JsValue.noConfusion hcon, fun hcon => JsValue.noConfusion hcon,
    traverse_binding_second_argument_parse Graph.new (JsValue.string "friend")
      (fun hcon => JsValue.noConfusion hcon) (fun hcon => JsValue.noConfusion hcon)⟩

/-- Claim C1: at the engine level a start node and an edge-type filter are
independent inputs (starting at a filtered to "friend" visits exactly a and
b), but the `traverse` binding parses both from argument 1, so an actual
call supplying a start node — or one supplying an edge-type string — panics
instead of traversing. -/
theorem traverse_binding_rejects_start_and_filter :
    traverseIds friendBlockGraph (some objA) (some "friend") = ["a", "b"]
    ∧ jsTraverse friendBlockGraph (some (JsValue.object [("id", JsValue.string "a")]))
        = HostOutcome.panicked
    ∧ jsTraverse friendBlockGraph (some (JsValue.string "friend")) = HostOutcome.panicked := by
  refine ⟨?_, ?_, rfl⟩
  · simp [traverseIds, startId, getId, objA, objB, objC, friendBlockGraph, bfsAux, get_node,
      newIds, neighbors]
  · simp [jsTraverse, jsTraverseStart, jsTraverseEdgeType, downcastObject, js_value_to_value,
      jsFieldsToValues]

/-- Claim C2: after a successful addNode(A), the engine-level add_node of a
node B with the same identifier fails with DuplicateIdentifier and leaves
the graph — hence the Node Index — unchanged; the addNode binding, however,
feeds that error to a panic, crashing the process instead of returning the
recoverable failure value. -/
theorem addNode_duplicate_error_vs_binding_panic (g : Graph) (A B : Obj) (id : String)
    (hA : getId A = some id) (hB : getId B = some id)
    (h1 : (add_node g A).1 = Except.ok ()) :
    (add_node (add_node g A).2 B).1 = Except.error GraphError.DuplicateIdentifier
    ∧ (add_node (add_node g A).2 B).2 = (add_node g A).2
    ∧ jsAddNode (add_node g A).2 (value_to_js_value (Value.Object B)) = HostOutcome.panicked := by
  cases hg : get_node g id with
  | some w =>
    have hbad : (add_node g A).1 = Except.error GraphError.DuplicateIdentifier := by
      simp only [add_node, hA, hg]
    rw [hbad] at h1
    exact absurd h1 (by simp)
  | none =>
    have h2 : (add_node g A).2 = { g with nodes := (id, A) :: g.nodes } := by
      simp only [add_node, hA, hg]
    have h3 : get_node (add_node g A).2 id = some A := by
      rw [h2, get_node, List.find?_cons_of_pos _ (by simp)]
      rfl
    have h4 : add_node (add_node g A).2 B
        = (Except.error GraphError.DuplicateIdentifier, (add_node g A).2) := by
      generalize hGen : (add_node g A).2 = gmid at h3 ⊢
      simp only [add_node, hB, h3]
    have h5 : value_to_js_value (Value.Object B) = JsValue.object (valueFieldsToJsFields B) := by
      simp [value_to_js_value]
    have h6 := value_roundtrip (Value.Object B)
    rw [h5] at h6
    refine ⟨by rw [h4], by rw [h4], ?_⟩
    rw [h5]
    simp only [jsAddNode, downcastObject, h6, h4]

theorem addNode_duplicate_error_vs_binding_panic_witness :
    getId objA = some "a"
    ∧ (add_node Graph.new objA).1 = Except.ok ()
    ∧ ((add_node (add_node Graph.new objA).2 objA).1
          = Except.error GraphError.DuplicateIdentifier
       ∧ (add_node (add_node Graph.new objA).2 objA).2 = (add_node Graph.new objA).2
       ∧ jsAddNode (add_node Graph.new objA).2 (value_to_js_value (Value.Object objA))
          = HostOutcome.panicked) :=
  ⟨rfl, rfl, addNode_duplicate_error_vs_binding_panic Graph.new objA objA "a" rfl rfl rfl⟩

/-- Claim C5: after a successful addNode(N), getNode with N's identifier
returns a field mapping structurally equal to N (`get_node` is a pure
lookup, so the graph state is untouched by it). -/
theorem addNode_getNode_roundtrip (g : Graph) (N : Obj) (id : String)
    (h : getId N = some id) (hok : (add_node g N).1 = Except.ok ()) :
    get_node (add_node g N).2 id = some N := by
  cases hg : get_node g id with
  | some w =>
    have hbad : (add_node g N).1 = Except.error GraphError.DuplicateIdentifier := by
      simp only [add_node, h, hg]
    rw [hbad] at hok
    exact absurd hok (by simp)
  | none =>
    have h2 : (add_node g N).2 = { g with nodes := (id, N) :: g.nodes } := by
      simp only [add_node, h, hg]
    rw [h2, get_node, List.find?_cons_of_pos _ (by simp)]
    rfl

theorem addNode_getNode_roundtrip_witness :
    getId objA = some "a"
    ∧ (add_node Graph.new objA).1 = Except.ok ()
    ∧ get_node (add_node Graph.new objA).2 "a" = some objA :=
  ⟨rfl, rfl, addNode_getNode_roundtrip Graph.new objA "a" rfl rfl⟩

/-- Claim C4 (counterexample): on the empty graph, the removeNode binding
surfaces a not-found lookup as a thrown "Does not have node" error — not as
an empty Option result. -/
theorem removeNode_not_found_throws :
    jsRemoveNode Graph.new (JsValue.object [("id", JsValue.string "a")])
      = HostOutcome.thrown "Does not have node" := by
  simp [jsRemoveNode, downcastObject, js_value_to_value, jsFieldsToValues, remove_node,
    Graph.new]

/-- Claim C4 (amended): a not-found lookup yields an empty Option at the
engine level for all three operations, and the getNode and removeById
bindings surface it as plain `undefined` with no error — but the removeNode
binding converts the empty Option into a thrown "Does not have node"
exception. -/
theorem not_found_is_nothing_except_removeNode_binding (g : Graph) (id : String) (node : Obj)
    (h1 : get_node g id = none) (h2 : (remove_node g node).1 = none) :
    jsGetNode g (JsValue.string id) = HostOutcome.ok JsValue.undefined
    ∧ remove_by_id g id = (none, g)
    ∧ jsRemoveById g (JsValue.string id) = HostOutcome.ok (JsValue.undefined, g)
    ∧ jsRemoveNode g (value_to_js_value (Value.Object node))
        = HostOutcome.thrown "Does not have node" := by
  have hf : g.nodes.find? (fun p => p.1 == id) = none := by
    rw [get_node, Option.map_eq_none'] at h1
    exact h1
  have hrb : remove_by_id g id = (none, g) := by
    rw [remove_by_id, hf]
  refine ⟨?_, hrb, ?_, ?_⟩
  · simp only [jsGetNode, h1]
  · simp only [jsRemoveById, hrb]
  · have h5 : value_to_js_value (Value.Object node)
        = JsValue.object (valueFieldsToJsFields node) := by
      simp [value_to_js_value]
    have h6 := value_roundtrip (Value.Object node)
    rw [h5] at h6
    rw [h5]
    simp only [jsRemoveNode, downcastObject, h6, remove_node_none h2]

theorem not_found_is_nothing_except_removeNode_binding_witness :
    get_node Graph.new "a" = none
    ∧ (remove_node Graph.new objA).1 = none
    ∧ (jsGetNode Graph.new (JsValue.string "a") = HostOutcome.ok JsValue.undefined
       ∧ remove_by_id Graph.new "a" = (none, Graph.new)
       ∧ jsRemoveById Graph.new (JsValue.string "a")
           = HostOutcome.ok (JsValue.undefined, Graph.new)
       ∧ jsRemoveNode Graph.new (value_to_js_value (Value.Object objA))
           = HostOutcome.thrown "Does not have node") :=
  ⟨rfl, rfl, not_found_is_nothing_except_removeNode_binding Graph.new "a" objA rfl rfl⟩

/-- Claim C7: a successful removal — by id or by structural node match —
leaves no edge in the Edge Index whose source or destination is the removed
identifier, and no traversal of the resulting graph, from any start and
under any edge-type filter, ever visits the removed identifier. -/
theorem remove_purges_edges_and_unreachable (g : Graph) (id nid : String) (n node nd : Obj)
    (h1 : (remove_by_id g id).1 = some n)
    (h2 : g.nodes.find? (fun p => valueFieldsBeq p.2 node) = some (nid, nd)) :
    (∀ e ∈ ((remove_by_id g id).2).edges, e.1 ≠ id ∧ e.2.2 ≠ id)
    ∧ (∀ (s : Option Obj) (ty : Option String), id ∉ traverseIds ((remove_by_id g id).2) s ty)
    ∧ (∀ e ∈ ((remove_node g node).2).edges, e.1 ≠ nid ∧ e.2.2 ≠ nid)
    ∧ (∀ (s : Option Obj) (ty : Option String),
        nid ∉ traverseIds ((remove_node g node).2) s ty) := by
  have hA : (remove_by_id g id).2 = purge g id := remove_by_id_found h1
  have hB : (remove_node g node).2 = purge g nid := by
    rw [remove_node, h2]
  rw [hA, hB]
  exact ⟨fun e he => purge_edges he, fun s ty => not_mem_traverse_purge g id s ty,
    fun e he => purge_edges he, fun s ty => not_mem_traverse_purge g nid s ty⟩

theorem remove_purges_edges_and_unreachable_witness :
    (remove_by_id singleAGraph "a").1 = some objA
    ∧ singleAGraph.nodes.find? (fun p => valueFieldsBeq p.2 objA) = some ("a", objA)
    ∧ ((∀ e ∈ ((remove_by_id singleAGraph "a").2).edges, e.1 ≠ "a" ∧ e.2.2 ≠ "a")
       ∧ (∀ (s : Option Obj) (ty : Option String),
            "a" ∉ traverseIds ((remove_by_id singleAGraph "a").2) s ty)
       ∧ (∀ e ∈ ((remove_node singleAGraph objA).2).edges, e.1 ≠ "a" ∧ e.2.2 ≠ "a")
       ∧ (∀ (s : Option Obj) (ty : Option String),
            "a" ∉ traverseIds ((remove_node singleAGraph objA).2) s ty)) := by
  have hbeq : valueFieldsBeq objA objA = true := (valueFieldsBeq_iff objA objA).mpr rfl
  have h2 : singleAGraph.nodes.find? (fun p => valueFieldsBeq p.2 objA) = some ("a", objA) := by
    show [("a", objA)].find? (fun p => valueFieldsBeq p.2 objA) = some ("a", objA)
    exact List.find?_cons_of_pos [] hbeq
  exact ⟨rfl, h2,
    remove_purges_edges_and_unreachable singleAGraph "a" "a" objA objA objA rfl h2⟩
